import Mathlib

/-!
Verification of the vault cryptographic storage engine of the
`vault-password-manager` repository.

The development shallowly embeds the two source modules the claims are about:

* `src/core/encryption.py` — salt/key derivation, Fernet encrypt/decrypt,
  master-password verification hash.  The cryptographic primitives are
  modelled symbolically: a PBKDF2-derived key is a record of the KDF
  parameters actually passed in the source (`algorithm`, `length`, `salt`,
  `iterations`) together with the password; a SHA-512 digest is an opaque
  wrapper of its input byte string (distinct inputs give distinct digests,
  the standard symbolic model of a collision-free hash); a Fernet token
  records the key it was produced under, its random IV and its plaintext,
  and decryption releases the plaintext only when the supplied key equals
  the token's key — otherwise it fails with `InvalidToken`, exactly the
  behaviour of Fernet's HMAC check.
* `src/core/database.py` — the `VaultDatabase` class.  The SQLite store is
  embedded as an explicit record (`master_config` row, `entries` table in
  rowid order, the AUTOINCREMENT counter); the process-local session is the
  optional encryption key and salt held by the instance.  Randomness
  (`os.urandom` salts, Fernet's per-call IVs) and clock reads
  (`datetime.now`) enter the model as explicit parameters, so theorems
  quantify over every possible random/clock outcome.  Fallible Python code
  (raised exceptions) is embedded with `Except`; mutating methods return
  the result together with the post-call state.
-/

namespace Vault

/-- Number of PBKDF2 iterations, `PBKDF2_ITERATIONS` in
`src/core/encryption.py` (line 33). -/
def PBKDF2_ITERATIONS : Nat := 600000

/-- Salt length in bytes, `SALT_LENGTH` in `src/core/encryption.py`. -/
def SALT_LENGTH : Nat := 16

/-- The hash algorithm passed to `PBKDF2HMAC` in `derive_key`. -/
inductive HashAlgorithm where
  | sha256
deriving DecidableEq, Repr

/-- Symbolic model of a Fernet key produced by `derive_key`: the record of
the PBKDF2 parameters the source passes (`algorithm=SHA256`, `length=32`,
`salt`, `iterations=PBKDF2_ITERATIONS`) together with the password bytes.
Two keys are equal exactly when all KDF inputs agree, the symbolic model of
a deterministic, collision-free KDF. -/
structure Key where
  algorithm : HashAlgorithm
  length : Nat
  salt : List Nat
  iterations : Nat
  password : String
deriving DecidableEq, Repr

/-- `derive_key` from `src/core/encryption.py` (lines 52–75): PBKDF2-HMAC
with SHA-256, a 32-byte output and `PBKDF2_ITERATIONS` iterations over the
UTF-8 bytes of the master password and the salt. -/
def derive_key (master_password : String) (salt : List Nat) : Key :=
  { algorithm := .sha256
    length := 32
    salt := salt
    iterations := PBKDF2_ITERATIONS
    password := master_password }

/-- Byte encoding of a string (`str.encode('utf-8')` in the source): the
code points of the characters, an injective encoding exactly as UTF-8 is. -/
def strBytes (s : String) : List Nat := s.data.map Char.toNat

/-- Symbolic SHA-512 digest: an opaque wrapper of the hashed input. -/
structure SHA512Digest where
  input : List Nat
deriving DecidableEq, Repr

/-- Symbolic `hashlib.sha512(input).hexdigest()`. -/
def sha512_hexdigest (input : List Nat) : SHA512Digest := ⟨input⟩

/-- `hash_master_password` from `src/core/encryption.py` (lines 121–141):
SHA-512 over password bytes ++ salt ++ the domain-separation tag
`b"verification"`. -/
def hash_master_password (master_password : String) (salt : List Nat) : SHA512Digest :=
  sha512_hexdigest (strBytes master_password ++ salt ++ strBytes "verification")

/-- `verify_master_password` from `src/core/encryption.py` (lines 144–156):
recompute the hash and compare with the stored one. -/
def verify_master_password (master_password : String) (salt : List Nat)
    (stored_hash : SHA512Digest) : Bool :=
  hash_master_password master_password salt == stored_hash

/-- Symbolic Fernet token: records the key it was encrypted under, the
random IV Fernet generated for the call, and the plaintext.  The integrity
tag of a real token is modelled by the `key` field: tag verification
succeeds exactly when decryption uses the producing key. -/
structure FernetToken where
  key : Key
  iv : Nat
  plaintext : String
deriving DecidableEq, Repr

/-- The error raised by Fernet when the integrity tag does not verify
(`cryptography.fernet.InvalidToken`). -/
inductive FernetError where
  | invalidToken
deriving DecidableEq, Repr

/-- `encrypt` from `src/core/encryption.py` (lines 78–96).  Fernet's
internally generated random IV is the explicit `iv` parameter here. -/
def encrypt (plaintext : String) (key : Key) (iv : Nat) : FernetToken :=
  { key := key, iv := iv, plaintext := plaintext }

/-- `decrypt` from `src/core/encryption.py` (lines 99–118): verify the
token's HMAC under `key` before releasing any plaintext; raise
`InvalidToken` when the tag does not verify (wrong key), never returning
corrupted plaintext. -/
def decrypt (token : FernetToken) (key : Key) : Except FernetError String :=
  if token.key == key then .ok token.plaintext else .error .invalidToken

/-! ## The vault storage engine, `src/core/database.py` -/

/-- A row of the `entries` table (schema at lines 82–94 of
`src/core/database.py`).  `id` is the INTEGER PRIMARY KEY AUTOINCREMENT,
`notes_encrypted` the nullable BLOB column. -/
structure EntryRow where
  id : Nat
  site_name : String
  url : String
  username_encrypted : FernetToken
  password_encrypted : FernetToken
  notes_encrypted : Option FernetToken
  category : String
  created_at : String
  updated_at : String
deriving DecidableEq, Repr

/-- The singleton `master_config` row (schema at lines 71–78). -/
structure MasterConfig where
  salt : List Nat
  password_hash : SHA512Digest
  created_at : String
deriving DecidableEq, Repr

/-- The persistent SQLite file: the optional `master_config` row, the
`entries` table in rowid order, and the AUTOINCREMENT counter that assigns
the next entry id. -/
structure VaultStore where
  config : Option MasterConfig
  entries : List EntryRow
  next_id : Nat
deriving DecidableEq, Repr

/-- A `VaultDatabase` instance: the persistent store plus the
process-local session (`self.encryption_key` and `self._salt`, both `None`
while locked). -/
structure VaultDatabase where
  store : VaultStore
  encryption_key : Option Key
  session_salt : Option (List Nat)
deriving DecidableEq, Repr

/-- The exceptions the storage engine can raise. -/
inductive VaultError where
  /-- `PermissionError` from `_require_unlocked`. -/
  | notUnlocked
  /-- `ValueError` from `unlock` when no `master_config` row exists. -/
  | notInitialized
  /-- `ValueError` from `initialize_vault` when a config row already exists. -/
  | alreadyInitialized
  /-- subscripting the absent config row in `change_master_password`. -/
  | missingConfig
  /-- a propagated `InvalidToken` from the crypto layer. -/
  | invalidToken
  /-- the simulated failure injected into the re-key transaction. -/
  | interrupted
deriving DecidableEq, Repr

instance {ε α : Type} [DecidableEq ε] [DecidableEq α] : DecidableEq (Except ε α) := fun x y =>
  match x, y with
  | .ok a, .ok b => if h : a = b then .isTrue (by rw [h]) else .isFalse (by simp [h])
  | .error a, .error b => if h : a = b then .isTrue (by rw [h]) else .isFalse (by simp [h])
  | .ok _, .error _ => .isFalse (by simp)
  | .error _, .ok _ => .isFalse (by simp)

/-- A decrypted entry as returned by `_decrypt_row` (lines 474–488): the
dictionary with plaintext `username`, `password` and `notes`. -/
structure EntryDict where
  id : Nat
  site_name : String
  url : String
  username : String
  password : String
  notes : String
  category : String
  created_at : String
  updated_at : String
deriving DecidableEq, Repr

/-- Python's `x or default` on strings: the empty string is falsy. -/
def orDefault (s dflt : String) : String := if s == "" then dflt else s

/-- `_decrypt_row` (lines 474–488): decrypt `username_encrypted` and
`password_encrypted`, decrypt `notes_encrypted` when present (else `""`),
default `url` to `""` and `category` to `"General"` via Python `or`.  A
failing decryption raises `InvalidToken`, which propagates. -/
def decryptRow (key : Key) (row : EntryRow) : Except FernetError EntryDict :=
  match decrypt row.username_encrypted key with
  | .error e => .error e
  | .ok username =>
    match decrypt row.password_encrypted key with
    | .error e => .error e
    | .ok password =>
      match (match row.notes_encrypted with
             | some tok => decrypt tok key
             | none => .ok "") with
      | .error e => .error e
      | .ok notes =>
        .ok { id := row.id
              site_name := row.site_name
              url := orDefault row.url ""
              username := username
              password := password
              notes := notes
              category := orDefault row.category "General"
              created_at := row.created_at
              updated_at := row.updated_at }

/-- Decrypt a list of rows in order, failing on the first bad row — the
list comprehension `[self._decrypt_row(row) for row in rows]`. -/
def decryptAll (key : Key) : List EntryRow → Except FernetError (List EntryDict)
  | [] => .ok []
  | r :: rs =>
    match decryptRow key r with
    | .error e => .error e
    | .ok d =>
      match decryptAll key rs with
      | .error e => .error e
      | .ok ds => .ok (d :: ds)

/-- ASCII lower-casing: the case folding SQLite applies both for the
`NOCASE` collation and for `LIKE` (only `A`–`Z` fold). -/
def lowerChar (c : Char) : Char :=
  if c.toNat ≥ 65 && c.toNat ≤ 90 then Char.ofNat (c.toNat + 32) else c

/-- The `NOCASE` collation of `ORDER BY site_name COLLATE NOCASE`:
lexicographic comparison after ASCII case folding. -/
def nocaseLe : List Char → List Char → Bool
  | [], _ => true
  | _ :: _, [] => false
  | x :: xs, y :: ys =>
    if lowerChar x == lowerChar y then nocaseLe xs ys
    else Nat.blt (lowerChar x).toNat (lowerChar y).toNat

/-- Stable insertion for `sortEntries`: a row is placed before the first
already-placed row it compares `≤` to, so rows with equal keys keep their
relative scan order. -/
def insertSorted (x : EntryRow) : List EntryRow → List EntryRow
  | [] => [x]
  | y :: ys =>
    if nocaseLe x.site_name.data y.site_name.data then x :: y :: ys
    else y :: insertSorted x ys

/-- `ORDER BY site_name COLLATE NOCASE` over the table scan: a stable sort
of the rows (in rowid order) by the NOCASE collation, so ties keep rowid
order as SQLite's scan yields them. -/
def sortEntries : List EntryRow → List EntryRow
  | [] => []
  | x :: xs => insertSorted x (sortEntries xs)

/-- `initialize_vault` (lines 112–143): refuse if a config row exists;
otherwise generate a salt (the explicit `salt` parameter here), derive the
session key, store salt and verification hash.  The vault is then
unlocked. -/
def initialize_vault (master_password : String) (salt : List Nat) (now : String)
    (db : VaultDatabase) : Except VaultError Unit × VaultDatabase :=
  match db.store.config with
  | some _ => (.error .alreadyInitialized, db)
  | none =>
    let key := derive_key master_password salt
    let pw_hash := hash_master_password master_password salt
    (.ok (),
     { store := { db.store with
                  config := some { salt := salt, password_hash := pw_hash, created_at := now } }
       encryption_key := some key
       session_salt := some salt })

/-- `unlock` (lines 145–177): load the stored salt into the session,
verify the password against the stored hash, and derive the session key on
success.  Raises when the vault is uninitialized; a wrong password is the
boolean `false`, not an exception. -/
def unlock (master_password : String) (db : VaultDatabase) :
    Except VaultError Bool × VaultDatabase :=
  match db.store.config with
  | none => (.error .notInitialized, db)
  | some cfg =>
    let db1 := { db with session_salt := some cfg.salt }
    if verify_master_password master_password cfg.salt cfg.password_hash then
      (.ok true, { db1 with encryption_key := some (derive_key master_password cfg.salt) })
    else
      (.ok false, db1)

/-- `add_entry` (lines 201–248): requires the vault unlocked; encrypts
username and password, encrypts notes only when non-empty (`encrypt(notes,
key) if notes else None`), stores `site_name`, `url`, `category` as
plaintext, and returns the freshly assigned rowid. -/
def add_entry (site_name username password url notes category : String)
    (now : String) (iv : Nat) (db : VaultDatabase) :
    Except VaultError Nat × VaultDatabase :=
  match db.encryption_key with
  | none => (.error .notUnlocked, db)
  | some key =>
    let username_enc := encrypt username key iv
    let password_enc := encrypt password key iv
    let notes_enc := if notes != "" then some (encrypt notes key iv) else none
    let row : EntryRow :=
      { id := db.store.next_id
        site_name := site_name
        url := url
        username_encrypted := username_enc
        password_encrypted := password_enc
        notes_encrypted := notes_enc
        category := category
        created_at := now
        updated_at := now }
    (.ok db.store.next_id,
     { db with store := { db.store with
                          entries := db.store.entries ++ [row]
                          next_id := db.store.next_id + 1 } })

/-- `get_all_entries` (lines 250–264): `SELECT * FROM entries ORDER BY
site_name COLLATE NOCASE`, then decrypt every row. -/
def get_all_entries (db : VaultDatabase) : Except VaultError (List EntryDict) :=
  match db.encryption_key with
  | none => .error .notUnlocked
  | some key =>
    match decryptAll key (sortEntries db.store.entries) with
    | .error _ => .error .invalidToken
    | .ok ds => .ok ds

/-- One conditional block of `update_entry`'s dynamic `SET` construction:
an argument left at its `None` default contributes nothing, a supplied
value contributes one column assignment. -/
def optUpdate (o : Option String) (f : String → EntryRow → EntryRow) :
    List (EntryRow → EntryRow) :=
  match o with
  | some v => [f v]
  | none => []

/-- `update_entry` (lines 283–341): build the dynamic `SET` list in source
order (`site_name`, `url`, `username`, `password`, `notes`, `category`),
return `False` when it is empty, otherwise append the `updated_at`
refresh, apply the update to every row whose id matches, and return
whether any row matched (`cursor.rowcount > 0`).  A Python argument left
at its `None` default is an absent `Option` here. -/
def update_entry (entry_id : Nat)
    (site_name username password url notes category : Option String)
    (now : String) (iv : Nat) (db : VaultDatabase) :
    Except VaultError Bool × VaultDatabase :=
  match db.encryption_key with
  | none => (.error .notUnlocked, db)
  | some key =>
    let updates : List (EntryRow → EntryRow) :=
      optUpdate site_name (fun s r => { r with site_name := s }) ++
      optUpdate url (fun u r => { r with url := u }) ++
      optUpdate username (fun u r => { r with username_encrypted := encrypt u key iv }) ++
      optUpdate password (fun p r => { r with password_encrypted := encrypt p key iv }) ++
      optUpdate notes (fun n r => { r with notes_encrypted := some (encrypt n key iv) }) ++
      optUpdate category (fun c r => { r with category := c })
    if updates.isEmpty then (.ok false, db)
    else
      let updates := updates ++ [fun (r : EntryRow) => { r with updated_at := now }]
      let apply1 := fun (r : EntryRow) => updates.foldl (fun r u => u r) r
      (.ok (db.store.entries.any (fun r => r.id == entry_id)),
       { db with store := { db.store with
                            entries := db.store.entries.map
                              (fun r => if r.id == entry_id then apply1 r else r) } })

/-- Bounded evaluator behind `likeMatch`; the fuel strictly exceeds the
recursion depth, which is bounded by pattern length + string length (every
call decreases that sum). -/
def likeAux : Nat → List Char → List Char → Bool
  | _, [], s => s.isEmpty
  | 0, _ :: _, _ => false
  | n + 1, '%' :: ps, s =>
    likeAux n ps s ||
      (match s with
       | [] => false
       | _ :: s' => likeAux n ('%' :: ps) s')
  | _ + 1, '_' :: _, [] => false
  | n + 1, '_' :: ps, _ :: s => likeAux n ps s
  | _ + 1, _ :: _, [] => false
  | n + 1, c :: ps, b :: s => (lowerChar c == lowerChar b) && likeAux n ps s

/-- SQLite's `LIKE` operator: `%` matches any (possibly empty) sequence,
`_` matches exactly one character, any other pattern character matches
itself up to ASCII case folding. -/
def likeMatch (p s : List Char) : Bool := likeAux (p.length + s.length) p s

/-- The pattern `f"%{query}%"` that `search_entries` binds to `LIKE`. -/
def likePattern (query : String) : List Char := '%' :: query.data ++ ['%']

/-- `search_entries` (lines 360–383): `SELECT * FROM entries WHERE
site_name LIKE '%query%' ORDER BY site_name COLLATE NOCASE`, then decrypt
the matching rows.  The `WHERE` + `ORDER BY` combination denotes the
NOCASE-ordered scan restricted to the rows matching the `LIKE` pattern
(the sort is stable, so filtering before or after sorting agree). -/
def search_entries (query : String) (db : VaultDatabase) :
    Except VaultError (List EntryDict) :=
  match db.encryption_key with
  | none => .error .notUnlocked
  | some key =>
    match decryptAll key ((sortEntries db.store.entries).filter
        (fun r => likeMatch (likePattern query) r.site_name.data)) with
    | .error _ => .error .invalidToken
    | .ok ds => .ok ds

/-- The row replacement the re-key loop performs for one decrypted entry
(the `UPDATE entries SET … WHERE id = ?` at lines 450–457): re-encrypt
username and password under the new key and re-encrypt notes only when
non-empty (`encrypt(entry["notes"], new_key) if entry["notes"] else
None`). -/
def reencRow (new_key : Key) (iv : Nat) (d : EntryDict) (r : EntryRow) : EntryRow :=
  { r with
    username_encrypted := encrypt d.username new_key iv
    password_encrypted := encrypt d.password new_key iv
    notes_encrypted := if d.notes != "" then some (encrypt d.notes new_key iv) else none }

/-- One `UPDATE entries … WHERE id = ?` statement: every row whose id
matches the dictionary's id is replaced. -/
def reencryptEntry (new_key : Key) (iv : Nat) (d : EntryDict)
    (rows : List EntryRow) : List EntryRow :=
  rows.map (fun r => if r.id == d.id then reencRow new_key iv d r else r)

/-- The write statements the re-key transaction issues between `BEGIN` and
`COMMIT` (lines 436–457): first the `master_config` update replacing salt
and verification hash together, then one `UPDATE` per previously decrypted
entry. -/
def rekeyWrites (cfg : MasterConfig) (new_salt : List Nat) (new_hash : SHA512Digest)
    (new_key : Key) (iv : Nat) (all_entries : List EntryDict) :
    List (VaultStore → VaultStore) :=
  (fun s => { s with config := some { cfg with salt := new_salt, password_hash := new_hash } }) ::
    all_entries.map (fun d s => { s with entries := reencryptEntry new_key iv d s.entries })

/-- `change_master_password` (lines 396–468): require the vault unlocked;
verify the old password against the *currently stored* salt and hash and
return `False` on mismatch, before touching any entry; decrypt every entry
under the session key (a failure propagates, nothing mutated); generate a
new salt (the explicit `new_salt` parameter), derive the new key and hash;
apply all the re-key writes inside one transaction that the `COMMIT`
publishes; only then install the new salt and key into the session. -/
def change_master_password (old_password new_password : String) (new_salt : List Nat)
    (iv : Nat) (db : VaultDatabase) : Except VaultError Bool × VaultDatabase :=
  match db.encryption_key with
  | none => (.error .notUnlocked, db)
  | some _key =>
    match db.store.config with
    | none => (.error .missingConfig, db)
    | some cfg =>
      if verify_master_password old_password cfg.salt cfg.password_hash then
        match get_all_entries db with
        | .error e => (.error e, db)
        | .ok all_entries =>
          let new_key := derive_key new_password new_salt
          let new_hash := hash_master_password new_password new_salt
          let store' := (rekeyWrites cfg new_salt new_hash new_key iv all_entries).foldl
            (fun s w => w s) db.store
          (.ok true,
           { store := store'
             encryption_key := some new_key
             session_salt := some new_salt })
      else (.ok false, db)

/-- `change_master_password` with a simulated failure injected into the
commit phase: the first `failAt` statements of the transaction of lines
436–457 execute, then the failure fires before `COMMIT`; the handler at
lines 466–468 rolls the open transaction back — discarding the uncommitted
writes, which never became visible in the durable store — and re-raises.
The session key and salt are only assigned after a successful `COMMIT`, so
they too are untouched. -/
def change_master_password_interrupted (old_password new_password : String)
    (new_salt : List Nat) (iv : Nat) (failAt : Nat) (db : VaultDatabase) :
    Except VaultError Bool × VaultDatabase :=
  match db.encryption_key with
  | none => (.error .notUnlocked, db)
  | some _key =>
    match db.store.config with
    | none => (.error .missingConfig, db)
    | some cfg =>
      if verify_master_password old_password cfg.salt cfg.password_hash then
        match get_all_entries db with
        | .error e => (.error e, db)
        | .ok all_entries =>
          let new_key := derive_key new_password new_salt
          let new_hash := hash_master_password new_password new_salt
          let writes := rekeyWrites cfg new_salt new_hash new_key iv all_entries
          let uncommitted := (writes.take failAt).foldl (fun s w => w s) db.store
          let _ := uncommitted
          (.error .interrupted, { db with store := db.store })
      else (.ok false, db)

/-- The per-row effect `update_entry` has on the matched row when at least
one field is supplied: exactly the supplied columns are assigned — the
sensitive ones re-encrypted under the session key — every omitted column
keeps its value, and `updated_at` is refreshed. -/
def appliedUpdate (key : Key) (iv : Nat) (now : String)
    (site_name username password url notes category : Option String)
    (r : EntryRow) : EntryRow :=
  { r with
    site_name := site_name.getD r.site_name
    url := url.getD r.url
    username_encrypted :=
      match username with
      | some u => encrypt u key iv
      | none => r.username_encrypted
    password_encrypted :=
      match password with
      | some p => encrypt p key iv
      | none => r.password_encrypted
    notes_encrypted :=
      match notes with
      | some n => some (encrypt n key iv)
      | none => r.notes_encrypted
    category := category.getD r.category
    updated_at := now }

/-- The presence rule the spec states for `notes_encrypted`: the ciphertext
is absent when the notes plaintext is empty and present otherwise, so a
stored encryption of the empty string violates it. -/
def notesPresenceOk (r : EntryRow) : Bool :=
  match r.notes_encrypted with
  | none => true
  | some tok => tok.plaintext != ""

/-- ASCII case folding of a character list. -/
def lowerChars (s : List Char) : List Char := s.map lowerChar

/-- Whether the first list is an initial segment of the second. -/
def charsStartWith : List Char → List Char → Bool
  | [], _ => true
  | _ :: _, [] => false
  | a :: n, b :: h => (a == b) && charsStartWith n h

/-- Whether the first list occurs contiguously inside the second. -/
def charsContain (n : List Char) : List Char → Bool
  | [] => n.isEmpty
  | b :: h => charsStartWith n (b :: h) || charsContain n h

/-- Spec-side predicate, written from the claim's words rather than from
the source: `query` occurs in `s` as a case-insensitive substring. -/
def containsCaseInsensitive (query s : String) : Bool :=
  charsContain (lowerChars query.data) (lowerChars s.data)

/-- A concrete initialized, unlocked, empty vault with master password
`"pw"` and salt `[8]`. -/
def cexC1db : VaultDatabase :=
  { store :=
      { config := some
          { salt := [8]
            password_hash := hash_master_password "pw" [8]
            created_at := "t0" }
        entries := []
        next_id := 1 }
    encryption_key := some (derive_key "pw" [8])
    session_salt := some [8] }

/-- A concrete consistent unlocked vault with a single entry whose site
name is `"abc"`. -/
def cexC9db : VaultDatabase :=
  { store :=
      { config := some
          { salt := [3]
            password_hash := hash_master_password "m" [3]
            created_at := "t0" }
        entries := [
          { id := 1
            site_name := "abc"
            url := ""
            username_encrypted := encrypt "u" (derive_key "m" [3]) 0
            password_encrypted := encrypt "p" (derive_key "m" [3]) 0
            notes_encrypted := none
            category := "General"
            created_at := "t0"
            updated_at := "t0" }]
        next_id := 2 }
    encryption_key := some (derive_key "m" [3])
    session_salt := some [3] }

/-- A concrete unlocked one-entry vault whose session key is
`derive_key "right" [1]` but whose entry ciphertexts were produced under an
unrelated key, so any attempt to decrypt an entry with the session key
fails — used to witness that the old-password check comes first. -/
def witC3db : VaultDatabase :=
  { store :=
      { config := some
          { salt := [1]
            password_hash := hash_master_password "right" [1]
            created_at := "t0" }
        entries := [
          { id := 1
            site_name := "Site"
            url := ""
            username_encrypted := encrypt "u" (derive_key "other" [9]) 0
            password_encrypted := encrypt "p" (derive_key "other" [9]) 0
            notes_encrypted := none
            category := "General"
            created_at := "t0"
            updated_at := "t0" }]
        next_id := 2 }
    encryption_key := some (derive_key "right" [1])
    session_salt := some [1] }

/-- A concrete consistent unlocked vault: master password `"old"`, salt
`[2]`, one entry encrypted under the session key. -/
def witC2db : VaultDatabase :=
  { store :=
      { config := some
          { salt := [2]
            password_hash := hash_master_password "old" [2]
            created_at := "t0" }
        entries := [
          { id := 1
            site_name := "GitHub"
            url := "https://github.com"
            username_encrypted := encrypt "sam@example.com" (derive_key "old" [2]) 0
            password_encrypted := encrypt "gh_pw1" (derive_key "old" [2]) 1
            notes_encrypted := some (encrypt "personal" (derive_key "old" [2]) 2)
            category := "General"
            created_at := "t0"
            updated_at := "t0" }]
        next_id := 2 }
    encryption_key := some (derive_key "old" [2])
    session_salt := some [2] }

end Vault

namespace Vault

/-- C4: for every plaintext string and every key (in particular every key
produced by `derive_key`) and every random IV chosen by Fernet,
`decrypt (encrypt plaintext key) key` returns exactly `plaintext`. -/
theorem encrypt_decrypt_roundtrip (plaintext : String) (key : Key) (iv : Nat) :
    decrypt (encrypt plaintext key iv) key = .ok plaintext := by
  simp [decrypt, encrypt]

/-- C5: decrypting under a key different from the one that produced the
token fails with the distinguishable `InvalidToken` error and releases no
plaintext: the integrity check runs before any plaintext is returned. -/
theorem decrypt_wrong_key (plaintext : String) (key1 key2 : Key) (iv : Nat)
    (h : key1 ≠ key2) :
    decrypt (encrypt plaintext key1 iv) key2 = .error .invalidToken := by
  simp [decrypt, encrypt, h]

/-- Witness for `decrypt_wrong_key` at two concretely distinct derived keys. -/
theorem decrypt_wrong_key_witness :
    derive_key "a" [0] ≠ derive_key "b" [0] ∧
    decrypt (encrypt "pw" (derive_key "a" [0]) 7) (derive_key "b" [0]) =
      .error .invalidToken :=
  ⟨by decide, decrypt_wrong_key "pw" _ _ 7 (by decide)⟩

/-- C6: `verify_master_password S salt (hash_master_password S salt)` is
true for every secret and salt; and for a secret `S'` whose verifier hash
differs from that of `S`, verification against `S`'s stored hash fails. -/
theorem verify_master_password_spec (S S' : String) (salt : List Nat)
    (h : hash_master_password S' salt ≠ hash_master_password S salt) :
    verify_master_password S salt (hash_master_password S salt) = true ∧
    verify_master_password S' salt (hash_master_password S salt) = false := by
  constructor
  · simp [verify_master_password]
  · simp [verify_master_password, h]

/-- Witness for `verify_master_password_spec` at concrete secrets. -/
theorem verify_master_password_spec_witness :
    hash_master_password "wrong" [1, 2] ≠ hash_master_password "right" [1, 2] ∧
    verify_master_password "right" [1, 2] (hash_master_password "right" [1, 2]) = true ∧
    verify_master_password "wrong" [1, 2] (hash_master_password "right" [1, 2]) = false :=
  ⟨by decide, verify_master_password_spec "right" "wrong" [1, 2] (by decide)⟩

/-- C7: `derive_key` applies PBKDF2 with HMAC-SHA256 at the fixed
`PBKDF2_ITERATIONS = 600000 ≥ 600000` iteration count, produces a 32-byte
key, and is deterministic: equal secrets and salts give equal keys. -/
theorem derive_key_params (s₁ s₂ : String) (t₁ t₂ : List Nat)
    (hs : s₁ = s₂) (ht : t₁ = t₂) :
    (derive_key s₁ t₁).algorithm = .sha256 ∧
    (derive_key s₁ t₁).iterations = PBKDF2_ITERATIONS ∧
    600000 ≤ PBKDF2_ITERATIONS ∧
    (derive_key s₁ t₁).length = 32 ∧
    derive_key s₁ t₁ = derive_key s₂ t₂ := by
  subst hs ht
  refine ⟨rfl, rfl, le_refl _, rfl, rfl⟩

/-- Witness for `derive_key_params` at a concrete secret and salt. -/
theorem derive_key_params_witness :
    (derive_key "pw" [3]).algorithm = .sha256 ∧
    (derive_key "pw" [3]).iterations = PBKDF2_ITERATIONS ∧
    600000 ≤ PBKDF2_ITERATIONS ∧
    (derive_key "pw" [3]).length = 32 ∧
    derive_key "pw" [3] = derive_key "pw" [3] :=
  derive_key_params "pw" "pw" [3] [3] rfl rfl


/-- C3: on an unlocked vault, `change_master_password` with an old password
that does not verify against the currently stored salt and hash returns
`False` and leaves the database — salt, verifier and every ciphertext —
exactly unchanged.  The equation holds for arbitrary stored entries,
including entries that are not decryptable under the session key, which is
the observable content of the verifier check running strictly before any
entry is decrypted or mutated. -/
theorem change_master_password_wrong_old (db : VaultDatabase) (key : Key)
    (cfg : MasterConfig) (old_password new_password : String)
    (new_salt : List Nat) (iv : Nat)
    (hk : db.encryption_key = some key)
    (hcfg : db.store.config = some cfg)
    (hbad : verify_master_password old_password cfg.salt cfg.password_hash = false) :
    change_master_password old_password new_password new_salt iv db = (.ok false, db) := by
  simp [change_master_password, hk, hcfg, hbad]

/-- Witness for `change_master_password_wrong_old`: the scenario
`changeSecret("wrong_old", "New1234!")` on a concrete vault whose entries
are not even decryptable under the session key. -/
theorem change_master_password_wrong_old_witness :
    witC3db.encryption_key = some (derive_key "right" [1]) ∧
    witC3db.store.config = some
      { salt := [1], password_hash := hash_master_password "right" [1], created_at := "t0" } ∧
    verify_master_password "wrong_old" [1] (hash_master_password "right" [1]) = false ∧
    change_master_password "wrong_old" "New1234!" [5] 3 witC3db = (.ok false, witC3db) :=
  ⟨rfl, rfl, by decide,
    change_master_password_wrong_old witC3db (derive_key "right" [1]) _
      "wrong_old" "New1234!" [5] 3 rfl rfl (by decide)⟩

/-- C2: if the re-key transaction is interrupted at any point of its commit
phase — after any number `failAt` of its write statements — the rollback
leaves the database exactly in its pre-call state (old salt, old verifier,
all old ciphertexts, session untouched), so no state mixing old-key and
new-key ciphertexts is ever durably visible, and unlocking with the old
secret afterwards still succeeds. -/
theorem change_master_password_interrupted_atomic (db : VaultDatabase) (key : Key)
    (cfg : MasterConfig) (old_password new_password : String) (new_salt : List Nat)
    (iv failAt : Nat)
    (hk : db.encryption_key = some key)
    (hcfg : db.store.config = some cfg)
    (hold : verify_master_password old_password cfg.salt cfg.password_hash = true) :
    (change_master_password_interrupted old_password new_password new_salt iv failAt db).2
      = db ∧
    (unlock old_password
      (change_master_password_interrupted old_password new_password new_salt iv failAt db).2).1
      = .ok true := by
  have h2 : (change_master_password_interrupted old_password new_password new_salt iv failAt db).2
      = db := by
    simp only [change_master_password_interrupted, hk, hcfg, hold, if_true]
    cases get_all_entries db <;> simp [← hk]
  refine ⟨h2, ?_⟩
  rw [h2]
  simp [unlock, hcfg, hold]

/-- Witness for `change_master_password_interrupted_atomic` on a concrete
consistent vault, interrupted after one write. -/
theorem change_master_password_interrupted_atomic_witness :
    witC2db.encryption_key = some (derive_key "old" [2]) ∧
    witC2db.store.config = some
      { salt := [2], password_hash := hash_master_password "old" [2], created_at := "t0" } ∧
    verify_master_password "old" [2] (hash_master_password "old" [2]) = true ∧
    ((change_master_password_interrupted "old" "new" [6] 4 1 witC2db).2 = witC2db ∧
     (unlock "old" (change_master_password_interrupted "old" "new" [6] 4 1 witC2db).2).1
       = .ok true) :=
  ⟨rfl, rfl, by decide,
    change_master_password_interrupted_atomic witC2db (derive_key "old" [2]) _
      "old" "new" [6] 4 1 rfl rfl (by decide)⟩


/-- Characterization of `update_entry`, shared helper: when no field is
supplied the call returns `False` and changes nothing; when at least one
field is supplied, exactly the matched rows receive `appliedUpdate` and the
result reports whether any row matched. -/
theorem update_entry_eq (db : VaultDatabase) (key : Key) (entry_id : Nat)
    (site_name username password url notes category : Option String)
    (now : String) (iv : Nat)
    (hk : db.encryption_key = some key) :
    update_entry entry_id site_name username password url notes category now iv db =
      if site_name.isSome || url.isSome || username.isSome || password.isSome ||
         notes.isSome || category.isSome then
        (.ok (db.store.entries.any (fun r => r.id == entry_id)),
         { db with store := { db.store with
             entries := db.store.entries.map (fun r =>
               if r.id == entry_id then
                 appliedUpdate key iv now site_name username password url notes category r
               else r) } })
      else (.ok false, db) := by
  cases site_name <;> cases url <;> cases username <;> cases password <;>
    cases notes <;> cases category <;>
    simp [update_entry, hk, optUpdate, appliedUpdate]

/-- C8: on an unlocked vault, `update_entry` with no supplied field returns
`False` and is a no-op; with at least one supplied field it rewrites only
the rows whose id matches, assigning exactly the supplied columns
(sensitive ones re-encrypted under the session key), leaving every omitted
column untouched, refreshing `updated_at`, and returns `True` exactly when
the id exists. -/
theorem update_entry_spec (db : VaultDatabase) (key : Key) (entry_id : Nat)
    (site_name username password url notes category : Option String)
    (now : String) (iv : Nat)
    (hk : db.encryption_key = some key) :
    ((site_name.isSome || url.isSome || username.isSome || password.isSome ||
      notes.isSome || category.isSome) = false →
      update_entry entry_id site_name username password url notes category now iv db =
        (.ok false, db)) ∧
    ((site_name.isSome || url.isSome || username.isSome || password.isSome ||
      notes.isSome || category.isSome) = true →
      update_entry entry_id site_name username password url notes category now iv db =
        (.ok (db.store.entries.any (fun r => r.id == entry_id)),
         { db with store := { db.store with
             entries := db.store.entries.map (fun r =>
               if r.id == entry_id then
                 appliedUpdate key iv now site_name username password url notes category r
               else r) } })) := by
  have h := update_entry_eq db key entry_id site_name username password url notes category
    now iv hk
  constructor <;> intro hs <;> rw [h, hs] <;> simp

/-- Witness for `update_entry_spec`: the scenario `updateEntry(id,
password="new_pw")` on a concrete one-entry vault. -/
theorem update_entry_spec_witness :
    witC2db.encryption_key = some (derive_key "old" [2]) ∧
    ((((none : Option String).isSome || (none : Option String).isSome ||
       (none : Option String).isSome || (some "new_pw").isSome ||
       (none : Option String).isSome || (none : Option String).isSome) = false →
      update_entry 1 none none (some "new_pw") none none none "t1" 9 witC2db =
        (.ok false, witC2db)) ∧
     (((none : Option String).isSome || (none : Option String).isSome ||
       (none : Option String).isSome || (some "new_pw").isSome ||
       (none : Option String).isSome || (none : Option String).isSome) = true →
      update_entry 1 none none (some "new_pw") none none none "t1" 9 witC2db =
        (.ok (witC2db.store.entries.any (fun r => r.id == 1)),
         { witC2db with store := { witC2db.store with
             entries := witC2db.store.entries.map (fun r =>
               if r.id == 1 then
                 appliedUpdate (derive_key "old" [2]) 9 "t1"
                   none none (some "new_pw") none none none r
               else r) } }))) :=
  ⟨rfl, update_entry_spec witC2db (derive_key "old" [2]) 1
    none none (some "new_pw") none none none "t1" 9 rfl⟩


/-- Helper: one re-key `UPDATE` preserves the notes-presence rule, because
the replaced notes column is absent exactly when the decrypted notes were
empty. -/
theorem reencryptEntry_notesPresenceOk (new_key : Key) (iv : Nat) (d : EntryDict)
    (rows : List EntryRow) (h : rows.all notesPresenceOk = true) :
    (reencryptEntry new_key iv d rows).all notesPresenceOk = true := by
  rw [List.all_eq_true] at h ⊢
  intro r hr
  rw [reencryptEntry, List.mem_map] at hr
  obtain ⟨r₀, hr₀, rfl⟩ := hr
  by_cases hid : (r₀.id == d.id) = true
  · by_cases hn : (d.notes != "") = true
    · have hn' : d.notes ≠ "" := by simpa [bne_iff_ne] using hn
      simp [hid, hn, notesPresenceOk, reencRow, encrypt, hn']
    · simp [hid, hn, notesPresenceOk, reencRow]
  · simp only [Bool.not_eq_true] at hid
    simpa [hid] using h r₀ hr₀

/-- Helper: the whole re-key loop preserves the notes-presence rule. -/
theorem foldl_reencrypt_notesPresenceOk (new_key : Key) (iv : Nat)
    (ds : List EntryDict) (rows : List EntryRow)
    (h : rows.all notesPresenceOk = true) :
    (ds.foldl (fun rows d => reencryptEntry new_key iv d rows) rows).all
      notesPresenceOk = true := by
  induction ds generalizing rows with
  | nil => exact h
  | cons d ds ih =>
    exact ih _ (reencryptEntry_notesPresenceOk new_key iv d rows h)

/-- Helper: pushing the store-level re-key fold down to the entries list. -/
theorem foldl_store_entries (new_key : Key) (iv : Nat) (ds : List EntryDict)
    (s : VaultStore) :
    ds.foldl (fun s d => { s with entries := reencryptEntry new_key iv d s.entries }) s =
      { s with entries := ds.foldl (fun rows d => reencryptEntry new_key iv d rows) s.entries } := by
  induction ds generalizing s with
  | nil => rfl
  | cons d ds ih => simp [List.foldl_cons, ih]

/-- Helper: the full effect of the re-key transaction on the store: the
config row gets the new salt and verification hash together, and the
entries list is the re-encryption fold; nothing else changes. -/
theorem rekeyWrites_foldl (cfg : MasterConfig) (new_salt : List Nat)
    (new_hash : SHA512Digest) (new_key : Key) (iv : Nat) (ds : List EntryDict)
    (s : VaultStore) :
    (rekeyWrites cfg new_salt new_hash new_key iv ds).foldl (fun s w => w s) s =
      { config := some { cfg with salt := new_salt, password_hash := new_hash }
        entries := ds.foldl (fun rows d => reencryptEntry new_key iv d rows) s.entries
        next_id := s.next_id } := by
  rw [rekeyWrites, List.foldl_cons, List.foldl_map, foldl_store_entries]

/-- C10 (amended): `add_entry` and `change_master_password` preserve the
notes-presence rule — the notes ciphertext is stored absent exactly when
the written notes plaintext is empty — and `update_entry` preserves it
provided the supplied notes value, if any, is non-empty.  (As
`update_entry_notes_presence_counterexample` shows, `update_entry` with
`notes=""` stores a present ciphertext of the empty string, so the rule is
not an invariant of every reachable state.) -/
theorem notes_presence_rule (db : VaultDatabase) (key : Key)
    (site username password url notes category : String) (entry_id : Nat)
    (siteO userO passO urlO notesO catO : Option String)
    (old_password new_password : String) (new_salt : List Nat)
    (now : String) (iv : Nat)
    (hk : db.encryption_key = some key)
    (hrule : db.store.entries.all notesPresenceOk = true) :
    (add_entry site username password url notes category now iv db).2.store.entries.all
      notesPresenceOk = true ∧
    ((∀ n, notesO = some n → n ≠ "") →
      (update_entry entry_id siteO userO passO urlO notesO catO now iv db).2.store.entries.all
        notesPresenceOk = true) ∧
    (change_master_password old_password new_password new_salt iv db).2.store.entries.all
      notesPresenceOk = true := by
  refine ⟨?_, ?_, ?_⟩
  · by_cases hn : (notes != "") = true
    · have hn' : notes ≠ "" := by simpa [bne_iff_ne] using hn
      simp [add_entry, hk, hn, notesPresenceOk, hrule, encrypt, hn']
    · simp [add_entry, hk, hn, notesPresenceOk, hrule]
  · intro hnotes
    rw [update_entry_eq db key entry_id siteO userO passO urlO notesO catO now iv hk]
    by_cases hs : (siteO.isSome || urlO.isSome || userO.isSome || passO.isSome ||
        notesO.isSome || catO.isSome) = true
    · rw [if_pos hs]
      rw [List.all_eq_true] at hrule ⊢
      intro r hr
      rw [List.mem_map] at hr
      obtain ⟨r₀, hr₀, rfl⟩ := hr
      by_cases hid : (r₀.id == entry_id) = true
      · rw [if_pos hid]
        rcases hno : notesO with _ | n
        · simpa [appliedUpdate, notesPresenceOk, hno] using hrule r₀ hr₀
        · have hne : n ≠ "" := hnotes n hno
          simp [appliedUpdate, notesPresenceOk, hno, hne, encrypt]
      · rw [if_neg hid]
        exact hrule r₀ hr₀
    · rw [if_neg hs]
      exact hrule
  · rw [change_master_password]
    simp only [hk]
    rcases hcfg : db.store.config with _ | cfg
    · simp only [hcfg]
      simpa using hrule
    · simp only [hcfg]
      by_cases hv : verify_master_password old_password cfg.salt cfg.password_hash = true
      · rw [if_pos hv]
        rcases hall : get_all_entries db with e | ds
        · simp only [hall]
          simpa using hrule
        · simp only [hall, rekeyWrites_foldl]
          exact foldl_reencrypt_notesPresenceOk _ iv ds db.store.entries hrule
      · rw [Bool.not_eq_true] at hv
        simp [hv, hrule]

/-- Counterexample to C10 as stated: on a consistent vault satisfying the
presence rule, `updateEntry(id, notes="")` stores a *present* ciphertext
whose plaintext is empty, violating the rule in a reachable state. -/
theorem update_entry_notes_presence_counterexample :
    witC2db.store.entries.all notesPresenceOk = true ∧
    ((update_entry 1 none none none none (some "") none "t2" 5 witC2db).2).store.entries.all
      notesPresenceOk = false := by
  decide

/-- Witness for `notes_presence_rule` at a concrete consistent vault, with
a non-empty supplied notes value for the update conjunct. -/
theorem notes_presence_rule_witness :
    witC2db.encryption_key = some (derive_key "old" [2]) ∧
    witC2db.store.entries.all notesPresenceOk = true ∧
    ((add_entry "Zebra" "zu" "zp" "" "" "General" "t3" 8 witC2db).2.store.entries.all
       notesPresenceOk = true ∧
     ((∀ n, (some "x" : Option String) = some n → n ≠ "") →
       (update_entry 1 none none none none (some "x") none "t3" 8 witC2db).2.store.entries.all
         notesPresenceOk = true) ∧
     (change_master_password "old" "new" [7] 8 witC2db).2.store.entries.all
       notesPresenceOk = true) :=
  ⟨rfl, by decide,
    notes_presence_rule witC2db (derive_key "old" [2]) "Zebra" "zu" "zp" "" "" "General" 1
      none none none none (some "x") none "old" "new" [7] "t3" 8 rfl (by decide)⟩


/-- Helper: a successful `_decrypt_row` keeps the row's id and site name. -/
theorem decryptRow_ok_ids (key : Key) (r : EntryRow) (d : EntryDict)
    (h : decryptRow key r = .ok d) : d.id = r.id ∧ d.site_name = r.site_name := by
  rw [decryptRow] at h
  split at h
  · simp at h
  · split at h
    · simp at h
    · split at h
      · simp at h
      · simp only [Except.ok.injEq] at h
        subst h
        exact ⟨rfl, rfl⟩

/-- Helper: decrypting a scan filtered on a plaintext-site predicate agrees
with decrypting the whole scan and filtering the dictionaries, because
`_decrypt_row` keeps the site name. -/
theorem decryptAll_filter (key : Key) (p : String → Bool) :
    ∀ (xs : List EntryRow) (ys : List EntryDict),
      decryptAll key xs = .ok ys →
      decryptAll key (xs.filter (fun r => p r.site_name)) =
        .ok (ys.filter (fun d => p d.site_name)) := by
  intro xs
  induction xs with
  | nil =>
    intro ys h
    rw [decryptAll] at h
    have : ys = [] := by simpa using h.symm
    subst this
    simp [decryptAll]
  | cons r rs ih =>
    intro ys h
    rw [decryptAll] at h
    rcases hd : decryptRow key r with e | d <;> rw [hd] at h
    · exact absurd h (by simp)
    rcases hds : decryptAll key rs with e | ds <;> rw [hds] at h
    · exact absurd h (by simp)
    have hys : ys = d :: ds := by simpa using h.symm
    subst hys
    have hsite := (decryptRow_ok_ids key r d hd).2
    by_cases hp : p r.site_name = true
    · rw [List.filter_cons_of_pos (by simpa using hp),
          List.filter_cons_of_pos (by simpa [hsite] using hp)]
      rw [decryptAll, hd, ih ds hds]
    · rw [List.filter_cons_of_neg (by simpa using hp),
          List.filter_cons_of_neg (by simpa [hsite] using hp)]
      exact ih ds hds

/-- C9 (amended): `search_entries query` returns exactly the entries of
`get_all_entries` whose plaintext site name matches the SQLite `LIKE`
pattern `%query%` — `%` and `_` inside the query act as wildcards and
matching folds ASCII case — fully decrypted and in the `get_all_entries`
order. -/
theorem search_entries_like (db : VaultDatabase) (key : Key) (query : String)
    (l : List EntryDict)
    (hk : db.encryption_key = some key)
    (hall : get_all_entries db = .ok l) :
    search_entries query db =
      .ok (l.filter (fun d => likeMatch (likePattern query) d.site_name.data)) := by
  rw [get_all_entries] at hall
  simp only [hk] at hall
  rcases h : decryptAll key (sortEntries db.store.entries) with e | ds <;> rw [h] at hall
  · exact absurd hall (by simp)
  have : ds = l := by simpa using hall
  subst this
  rw [search_entries]
  simp only [hk]
  have hf := decryptAll_filter key (fun nm => likeMatch (likePattern query) nm.data)
    (sortEntries db.store.entries) ds h
  rw [hf]

/-- Counterexample to C9 as stated: `search_entries "a_c"` returns the
entry with site name `"abc"` although `"a_c"` is not a case-insensitive
substring of `"abc"` — the query's `_` acts as a SQL `LIKE` wildcard. -/
theorem search_entries_substring_counterexample :
    containsCaseInsensitive "a_c" "abc" = false ∧
    search_entries "a_c" cexC9db = .ok
      [{ id := 1, site_name := "abc", url := "", username := "u", password := "p",
         notes := "", category := "General", created_at := "t0", updated_at := "t0" }] := by
  decide

/-- Witness for `search_entries_like`: the scenario `searchEntries("git")`
matching a `"GitHub"` entry case-insensitively with its decrypted
credentials. -/
theorem search_entries_like_witness :
    witC2db.encryption_key = some (derive_key "old" [2]) ∧
    get_all_entries witC2db = .ok
      [{ id := 1, site_name := "GitHub", url := "https://github.com",
         username := "sam@example.com", password := "gh_pw1", notes := "personal",
         category := "General", created_at := "t0", updated_at := "t0" }] ∧
    search_entries "git" witC2db = .ok
      (([{ id := 1, site_name := "GitHub", url := "https://github.com",
           username := "sam@example.com", password := "gh_pw1", notes := "personal",
           category := "General", created_at := "t0", updated_at := "t0" }] :
         List EntryDict).filter
        (fun d => likeMatch (likePattern "git") d.site_name.data)) :=
  ⟨rfl, by decide,
    search_entries_like witC2db (derive_key "old" [2]) "git" _ rfl (by decide)⟩


/-- Helper: inserting into the stable sort is a permutation. -/
theorem insertSorted_perm (x : EntryRow) (l : List EntryRow) :
    List.Perm (insertSorted x l) (x :: l) := by
  induction l with
  | nil => simp [insertSorted]
  | cons y ys ih =>
    rw [insertSorted]
    by_cases hc : nocaseLe x.site_name.data y.site_name.data = true
    · rw [if_pos hc]
    · rw [if_neg hc]
      exact (ih.cons y).trans (List.Perm.swap x y ys)

/-- Helper: the `ORDER BY` sort is a permutation of the table scan. -/
theorem sortEntries_perm (l : List EntryRow) : List.Perm (sortEntries l) l := by
  induction l with
  | nil => rfl
  | cons x xs ih => exact (insertSorted_perm x (sortEntries xs)).trans (ih.cons x)

/-- Helper: insertion commutes with a row transformation that keeps the
site name, since the comparisons are unchanged. -/
theorem insertSorted_map (f : EntryRow → EntryRow)
    (hf : ∀ r, (f r).site_name = r.site_name) (x : EntryRow) (l : List EntryRow) :
    insertSorted (f x) (l.map f) = (insertSorted x l).map f := by
  induction l with
  | nil => simp [insertSorted]
  | cons y ys ih =>
    rw [List.map_cons, insertSorted, insertSorted, hf, hf]
    by_cases hc : nocaseLe x.site_name.data y.site_name.data = true
    · rw [if_pos hc, if_pos hc, List.map_cons, List.map_cons]
    · rw [if_neg hc, if_neg hc, List.map_cons, ih]

/-- Helper: the sort commutes with a row transformation that keeps the
site name. -/
theorem sortEntries_map (f : EntryRow → EntryRow)
    (hf : ∀ r, (f r).site_name = r.site_name) (l : List EntryRow) :
    sortEntries (l.map f) = (sortEntries l).map f := by
  induction l with
  | nil => rfl
  | cons x xs ih => rw [List.map_cons, sortEntries, sortEntries, ih, insertSorted_map f hf]

/-- Helper: a successful `decryptAll` decrypts the rows pointwise. -/
theorem decryptAll_ok_forall₂ (key : Key) :
    ∀ (xs : List EntryRow) (ys : List EntryDict), decryptAll key xs = .ok ys →
      List.Forall₂ (fun r d => decryptRow key r = .ok d) xs ys := by
  intro xs
  induction xs with
  | nil =>
    intro ys h
    rw [decryptAll] at h
    have : ys = [] := by simpa using h.symm
    subst this
    exact List.Forall₂.nil
  | cons r rs ih =>
    intro ys h
    rw [decryptAll] at h
    rcases hd : decryptRow key r with e | d <;> rw [hd] at h
    · exact absurd h (by simp)
    rcases hds : decryptAll key rs with e | ds <;> rw [hds] at h
    · exact absurd h (by simp)
    have : ys = d :: ds := by simpa using h.symm
    subst this
    exact List.Forall₂.cons hd (ih ds hds)

/-- Helper: pointwise decryptability rebuilds a successful `decryptAll`. -/
theorem decryptAll_of_forall₂ (key : Key) :
    ∀ {xs : List EntryRow} {ys : List EntryDict},
      List.Forall₂ (fun r d => decryptRow key r = .ok d) xs ys →
      decryptAll key xs = .ok ys := by
  intro xs ys hf
  induction hf with
  | nil => rfl
  | cons hrd _ ih => rw [decryptAll]; rw [hrd, ih]

/-- Helper: the ids of the decrypted dictionaries are the row ids. -/
theorem decryptAll_ids (key : Key) :
    ∀ {xs : List EntryRow} {ys : List EntryDict},
      List.Forall₂ (fun r d => decryptRow key r = .ok d) xs ys →
      ys.map EntryDict.id = xs.map EntryRow.id := by
  intro xs ys hf
  induction hf with
  | nil => rfl
  | cons hrd _ ih =>
    rw [List.map_cons, List.map_cons, ih, (decryptRow_ok_ids _ _ _ hrd).1]

/-- Helper: re-encrypting a row from its own decryption under the new key
decrypts back to the same dictionary: username and password round-trip, and
the notes column is rebuilt absent exactly when the decrypted notes were
empty, which `_decrypt_row` reads back as `""`. -/
theorem decryptRow_reencRow (key new_key : Key) (iv : Nat) (r : EntryRow) (d : EntryDict)
    (h : decryptRow key r = .ok d) :
    decryptRow new_key (reencRow new_key iv d r) = .ok d := by
  rw [decryptRow] at h
  split at h
  · simp at h
  · split at h
    · simp at h
    · split at h
      · simp at h
      · rename_i xu u hu xp p hp xn n hn0
        simp only [Except.ok.injEq] at h
        subst h
        rw [decryptRow]
        by_cases hemp : n = ""
        · subst hemp
          simp [reencRow, encrypt, decrypt]
        · simp [reencRow, encrypt, decrypt, hemp]

/-- Helper: a fold of re-key row updates whose dictionary ids all differ
from the row's id leaves the row unchanged. -/
theorem foldl_reenc_id (new_key : Key) (iv : Nat) :
    ∀ (ds : List EntryDict) (r : EntryRow),
      (∀ d ∈ ds, (r.id == d.id) = false) →
      ds.foldl (fun r d => if r.id == d.id then reencRow new_key iv d r else r) r = r := by
  intro ds
  induction ds with
  | nil => intro r _; rfl
  | cons d ds ih =>
    intro r h
    rw [List.foldl_cons, h d (List.mem_cons_self d ds)]
    exact ih r (fun d' hd' => h d' (List.mem_cons_of_mem d hd'))


/-- Helper: a row keeps its site name through the fold of re-key row
updates. -/
theorem foldl_reenc_site (new_key : Key) (iv : Nat) :
    ∀ (ds : List EntryDict) (r : EntryRow),
      (ds.foldl (fun r d => if r.id == d.id then reencRow new_key iv d r else r) r).site_name
        = r.site_name := by
  intro ds
  induction ds with
  | nil => intro r; rfl
  | cons d ds ih =>
    intro r
    rw [List.foldl_cons]
    by_cases hc : (r.id == d.id) = true
    · rw [if_pos hc, ih]; rfl
    · rw [if_neg hc, ih]

/-- Helper: when the dictionary ids are unique, folding all the re-key row
updates over a row whose id belongs to dictionary `d₀` performs exactly
`d₀`'s update. -/
theorem foldl_reenc_unique (new_key : Key) (iv : Nat) :
    ∀ (ds : List EntryDict) (r : EntryRow) (d₀ : EntryDict),
      d₀ ∈ ds → d₀.id = r.id → (ds.map EntryDict.id).Nodup →
      ds.foldl (fun r d => if r.id == d.id then reencRow new_key iv d r else r) r
        = reencRow new_key iv d₀ r := by
  intro ds
  induction ds with
  | nil => intro r d₀ hmem; exact absurd hmem (List.not_mem_nil d₀)
  | cons d ds ih =>
    intro r d₀ hmem hid hnodup
    rw [List.map_cons, List.nodup_cons] at hnodup
    rw [List.foldl_cons]
    by_cases hc : (r.id == d.id) = true
    · have hrd : r.id = d.id := by simpa using hc
      have hd : d = d₀ := by
        rcases List.mem_cons.mp hmem with h | h
        · exact h.symm
        · exact absurd (List.mem_map_of_mem EntryDict.id h)
            (by rw [hid, hrd]; exact hnodup.1)
      subst hd
      rw [if_pos hc]
      apply foldl_reenc_id
      intro d' hd'
      have hne : d'.id ≠ d.id := by
        intro heq
        exact hnodup.1 (heq ▸ List.mem_map_of_mem EntryDict.id hd')
      have : (reencRow new_key iv d r).id = r.id := rfl
      rw [this]
      rw [hrd]
      simpa using fun h => (hne h.symm).elim
    · rw [if_neg hc]
      have hd₀ : d₀ ∈ ds := by
        rcases List.mem_cons.mp hmem with h | h
        · exfalso
          apply hc
          rw [← h, hid]
          simp
        · exact h
      exact ih r d₀ hd₀ hid hnodup.2

/-- Helper: the sequence of re-key `UPDATE` statements equals one pass that
folds every row through all the updates. -/
theorem foldl_reencryptEntry_eq_map (new_key : Key) (iv : Nat) :
    ∀ (ds : List EntryDict) (l : List EntryRow),
      ds.foldl (fun rows d => reencryptEntry new_key iv d rows) l =
        l.map (fun r =>
          ds.foldl (fun r d => if r.id == d.id then reencRow new_key iv d r else r) r) := by
  intro ds
  induction ds with
  | nil => intro l; simp
  | cons d ds ih =>
    intro l
    rw [List.foldl_cons, ih, reencryptEntry, List.map_map]
    rfl


/-- Helper: a character is determined by its code point. -/
theorem char_toNat_injective : Function.Injective Char.toNat := by
  intro a b h
  have h2 := congrArg Char.ofNat h
  rwa [Char.ofNat_toNat, Char.ofNat_toNat] at h2

/-- Helper: the byte encoding of strings is injective, as UTF-8 is. -/
theorem strBytes_injective : Function.Injective strBytes := by
  intro a b h
  rw [strBytes, strBytes] at h
  have hdata : a.data = b.data := List.map_injective_iff.mpr char_toNat_injective h
  cases a
  cases b
  exact congrArg String.mk hdata

/-- Helper: a secret always verifies against its own stored hash. -/
theorem verify_self (s : String) (t : List Nat) :
    verify_master_password s t (hash_master_password s t) = true := by
  simp [verify_master_password]

/-- Helper: distinct secrets never verify against each other's hash over
the same salt, because the hashed byte strings differ. -/
theorem verify_ne (a b : String) (t : List Nat) (hne : a ≠ b) :
    verify_master_password a t (hash_master_password b t) = false := by
  rw [verify_master_password]
  apply beq_eq_false_iff_ne.mpr
  intro heq
  rw [hash_master_password, hash_master_password, sha512_hexdigest, sha512_hexdigest] at heq
  have hinput : strBytes a ++ (t ++ strBytes "verification") =
      strBytes b ++ (t ++ strBytes "verification") := by
    simpa [List.append_assoc] using congrArg SHA512Digest.input heq
  exact hne (strBytes_injective (List.append_cancel_right hinput))

/-- Helper: after the re-key fold, decrypting the transformed rows under
the new key returns exactly the dictionaries decrypted before the re-key. -/
theorem decryptAll_reencrypted (key new_key : Key) (iv : Nat) (dicts : List EntryDict)
    (hnodup : (dicts.map EntryDict.id).Nodup) :
    ∀ (xs : List EntryRow) (ys : List EntryDict),
      List.Forall₂ (fun r d => decryptRow key r = .ok d) xs ys →
      (∀ d ∈ ys, d ∈ dicts) →
      decryptAll new_key (xs.map (fun r =>
        dicts.foldl (fun r d => if r.id == d.id then reencRow new_key iv d r else r) r))
        = .ok ys := by
  intro xs ys hf
  induction hf with
  | nil => intro _; rfl
  | @cons r d xs ys hrd hf ih =>
    intro hsub
    rw [List.map_cons, decryptAll]
    have hdid : d.id = r.id := (decryptRow_ok_ids key r d hrd).1
    rw [foldl_reenc_unique new_key iv dicts r d (hsub d (List.mem_cons_self d ys)) hdid hnodup]
    rw [decryptRow_reencRow key new_key iv r d hrd]
    rw [ih (fun d' hd' => hsub d' (List.mem_cons_of_mem d hd'))]


/-- C1 (amended): on an unlocked vault whose entry ids are unique (the
PRIMARY KEY schema guarantee), if `change_master_password old new`
returns `True` and `old ≠ new`, then unlocking with the new password
succeeds, every stored entry then decrypts to exactly the plaintext it had
before the re-key (`get_all_entries` is unchanged), and unlocking with the
old password fails. -/
theorem change_master_password_rekey (db : VaultDatabase)
    (old_password new_password : String) (new_salt : List Nat) (iv : Nat)
    (hids : (db.store.entries.map EntryRow.id).Nodup)
    (hok : (change_master_password old_password new_password new_salt iv db).1 = .ok true)
    (hne : old_password ≠ new_password) :
    (unlock new_password
      (change_master_password old_password new_password new_salt iv db).2).1 = .ok true ∧
    get_all_entries (unlock new_password
      (change_master_password old_password new_password new_salt iv db).2).2
      = get_all_entries db ∧
    (unlock old_password
      (change_master_password old_password new_password new_salt iv db).2).1 = .ok false := by
  rw [change_master_password] at hok
  split at hok
  · simp at hok
  · rename_i key hkey
    split at hok
    · simp at hok
    · rename_i cfg hcfg
      split at hok
      · rename_i hv
        split at hok
        · simp at hok
        · rename_i dicts hall
          have hda : decryptAll key (sortEntries db.store.entries) = .ok dicts := by
            simp only [get_all_entries, hkey] at hall
            split at hall
            · simp at hall
            · rename_i ds hds
              have : ds = dicts := by simpa using hall
              subst this
              exact hds
          have hforall := decryptAll_ok_forall₂ key _ _ hda
          have hnodup : (dicts.map EntryDict.id).Nodup := by
            rw [decryptAll_ids key hforall]
            exact (((sortEntries_perm db.store.entries).map EntryRow.id).nodup_iff).mpr hids
          simp only [change_master_password, hkey, hcfg, hv, eq_self_iff_true, if_true,
            hall, rekeyWrites_foldl]
          refine ⟨?_, ?_, ?_⟩
          · simp [unlock, verify_self]
          · have hent := foldl_reencryptEntry_eq_map (derive_key new_password new_salt) iv
              dicts db.store.entries
            have hsrt := sortEntries_map _
              (fun r => foldl_reenc_site (derive_key new_password new_salt) iv dicts r)
              db.store.entries
            have hdec := decryptAll_reencrypted key (derive_key new_password new_salt) iv
              dicts hnodup (sortEntries db.store.entries) dicts hforall (fun d h => h)
            simp only [beq_iff_eq] at hent hsrt hdec
            simp [unlock, verify_self, get_all_entries, hent, hsrt, hdec]
          · simp [unlock, verify_ne old_password new_password new_salt hne]
      · simp at hok

/-- Counterexample to C1 as stated: re-keying an initialized vault with
`new` equal to `old` succeeds, after which `unlock(old)` succeeds rather
than failing — the claim's `unlock(old) = false` part needs `old ≠ new`. -/
theorem change_master_password_rekey_counterexample :
    (change_master_password "pw" "pw" [9] 0 cexC1db).1 = .ok true ∧
    (unlock "pw" (change_master_password "pw" "pw" [9] 0 cexC1db).2).1 = .ok true := by
  decide

/-- Witness for `change_master_password_rekey` on a concrete one-entry
vault re-keyed from `"old"` to `"new"`. -/
theorem change_master_password_rekey_witness :
    (witC2db.store.entries.map EntryRow.id).Nodup ∧
    (change_master_password "old" "new" [6] 4 witC2db).1 = .ok true ∧
    "old" ≠ "new" ∧
    ((unlock "new" (change_master_password "old" "new" [6] 4 witC2db).2).1 = .ok true ∧
     get_all_entries (unlock "new" (change_master_password "old" "new" [6] 4 witC2db).2).2
       = get_all_entries witC2db ∧
     (unlock "old" (change_master_password "old" "new" [6] 4 witC2db).2).1 = .ok false) :=
  ⟨by decide, by decide, by decide,
    change_master_password_rekey witC2db "old" "new" [6] 4 (by decide) (by decide) (by decide)⟩

end Vault
